import Mathlib

/-!
Verification development for a single-user calendar/event manager
(`app.py`). The persisted document is a Python dict mapping a year-month
key (the first 7 characters of the date string) to a dict mapping a date
string to a list of event records with fields title, description and
timestamp. The embedding models Python dicts as insertion-ordered
association lists with the exact update/lookup/delete semantics of dicts
(replace in place, append new keys at the end, unique keys on all
reachable states), Python list index deletion with its negative-index
semantics and IndexError, and the JSON persistence layer as a JSON value
tree written by save_events and read back by load_events.
-/

set_option autoImplicit false

/-- One stored event: the dict literal built in the add-event handler of
app.py, with the timestamp kept as its ISO-8601 string. -/
structure EventRecord where
  title : String
  description : String
  timestamp : String
deriving DecidableEq

/-- The inner mapping from date strings to event lists. -/
abbrev MonthMap : Type := List (String × List EventRecord)

/-- The whole persisted document: year-month keys to month maps. -/
abbrev Document : Type := List (String × MonthMap)

/-- Python dict lookup `d[k]` as an Option: first (and on reachable
states only) entry with the given key. -/
def dictGet {β : Type} : List (String × β) → String → Option β
  | [], _ => none
  | p :: rest, k => if p.1 = k then some p.2 else dictGet rest k

/-- Python dict update `d[k] = v`: replace the value in place when the
key is present, otherwise append the new entry at the end (insertion
order semantics of Python dicts). -/
def dictSet {β : Type} : List (String × β) → String → β → List (String × β)
  | [], k, v => [(k, v)]
  | p :: rest, k, v => if p.1 = k then (k, v) :: rest else p :: dictSet rest k v

/-- Python dict deletion `del d[k]`: drop the entry with the given key,
keeping the rest in order. -/
def dictDel {β : Type} : List (String × β) → String → List (String × β)
  | [], _ => []
  | p :: rest, k => if p.1 = k then rest else p :: dictDel rest k

/-- The year-month grouping key: `selected_date_str[:7]` in app.py. -/
def yearMonth (date : String) : String :=
  date.take 7

/-- Python exceptions raised by the delete handler: KeyError from a dict
subscript on a missing key, IndexError from deleting at a bad list
index. -/
inductive PyError where
  | keyError (k : String)
  | indexError
deriving DecidableEq

/-- Python dict subscript `d[k]`, raising KeyError when absent. -/
def pyGetItem {β : Type} (d : List (String × β)) (k : String) : Except PyError β :=
  match dictGet d k with
  | some v => Except.ok v
  | none => Except.error (PyError.keyError k)

/-- Python list deletion `del l[i]` for an int index: a negative index
counts from the end; an index outside the adjusted range 0..len-1
raises IndexError before any mutation. -/
def pyDelIdx {α : Type} (l : List α) (i : Int) : Except PyError (List α) :=
  let n : Int := l.length
  let j : Int := if i < 0 then i + n else i
  if 0 ≤ j ∧ j < n then Except.ok (l.eraseIdx j.toNat) else Except.error PyError.indexError

/-- Messages the app surfaces through st.success, st.info, st.warning
and st.error. -/
inductive UIMsg where
  | success (s : String)
  | info (s : String)
  | warning (s : String)
  | error (s : String)
deriving DecidableEq

/-- The mutation performed by the add-event handler when the title is
non-empty (app.py lines 130-143): ensure the year-month dict and the
date list exist, then append the new record with the current clock
reading as its timestamp. -/
def addEvent (events : Document) (date title desc now : String) : Document :=
  let ym := yearMonth date
  let events1 := if dictGet events ym = none then dictSet events ym [] else events
  let mm := (dictGet events1 ym).getD []
  let mm1 := if dictGet mm date = none then dictSet mm date [] else mm
  let lst := (dictGet mm1 date).getD []
  dictSet events1 ym (dictSet mm1 date (lst ++ [⟨title, desc, now⟩]))

/-- The event list rendered for a date (app.py lines 156-161): the list
at `events[date[:7]][date]` when both keys exist, otherwise empty. -/
def listEvents (events : Document) (date : String) : List EventRecord :=
  match dictGet events (yearMonth date) with
  | some mm =>
    match dictGet mm date with
    | some l => l
    | none => []
  | none => []

/-- A JSON value as produced by serialising the document; the app only
ever writes strings, arrays and objects. -/
inductive Json where
  | str (s : String)
  | arr (xs : List Json)
  | obj (kvs : List (String × Json))

/-- JSON encoding of one event record, in the field order the handler
builds the dict. Strings are carried verbatim: save_events passes
ensure_ascii to json.dump as False, so non-ASCII text is written as-is. -/
def encodeRecord (r : EventRecord) : Json :=
  Json.obj [("title", Json.str r.title), ("description", Json.str r.description),
    ("timestamp", Json.str r.timestamp)]

/-- JSON encoding of a month map. -/
def encodeMonthMap (mm : MonthMap) : Json :=
  Json.obj (mm.map (fun p => (p.1, Json.arr (p.2.map encodeRecord))))

/-- JSON encoding of the whole document, as written by save_events. -/
def encodeDoc (d : Document) : Json :=
  Json.obj (d.map (fun p => (p.1, encodeMonthMap p.2)))

/-- Decode every element of a list, failing if any element fails. -/
def optMapAll {α β : Type} (f : α → Option β) : List α → Option (List β)
  | [] => some []
  | a :: as =>
    match f a with
    | some b => (optMapAll f as).map (fun bs => b :: bs)
    | none => none

/-- Interpretation of a JSON value as one event record. -/
def decodeRecord : Json → Option EventRecord
  | Json.obj [("title", Json.str t), ("description", Json.str ds), ("timestamp", Json.str ts)] =>
    some ⟨t, ds, ts⟩
  | _ => none

/-- Interpretation of a JSON value as a day event list. -/
def decodeDayList : Json → Option (List EventRecord)
  | Json.arr xs => optMapAll decodeRecord xs
  | _ => none

/-- Interpretation of a JSON value as a month map. -/
def decodeMonthMap : Json → Option MonthMap
  | Json.obj kvs => optMapAll (fun p => (decodeDayList p.2).map (fun l => (p.1, l))) kvs
  | _ => none

/-- Interpretation of a JSON value as a document. -/
def decodeDoc : Json → Option Document
  | Json.obj kvs => optMapAll (fun p => (decodeMonthMap p.2).map (fun mm => (p.1, mm))) kvs
  | _ => none

/-- The storage file: absent, holding text that is not valid JSON, or
holding well-formed JSON text for a value. -/
inductive StoredFile where
  | missing
  | corrupt (text : String)
  | json (j : Json)

/-- save_events (app.py lines 27-30): open for writing truncates
whatever was there and json.dump writes the full document, pretty
printed with non-ASCII text verbatim; the new file content is exactly
the serialised document. -/
def save_events (events : Document) : StoredFile :=
  StoredFile.json (encodeDoc events)

/-- load_events (app.py lines 12-24): a missing file yields the empty
document with no message; well-formed JSON text yields its parsed
value; text that fails to parse yields the empty document next to the
st.error message. The file itself is opened read-only and returned
unchanged in the first component; the function is total, so no input
crashes it. -/
def load_events (fs : StoredFile) : StoredFile × Json × List UIMsg :=
  match fs with
  | StoredFile.missing => (StoredFile.missing, Json.obj [], [])
  | StoredFile.corrupt s =>
    (StoredFile.corrupt s, Json.obj [],
      [UIMsg.error "イベントファイルが破損しています。空のデータで開始します。"])
  | StoredFile.json j => (StoredFile.json j, j, [])

/-- The add-event button handler (app.py lines 128-148): with a
non-empty title it mutates the document, saves, and reports success;
with an empty title (falsy in Python) it warns and neither mutates nor
saves. The second component is the file write performed, if any. -/
def addEventHandler (events : Document) (date title desc now : String) :
    Document × Option StoredFile × UIMsg :=
  if title ≠ "" then
    let events2 := addEvent events date title desc now
    (events2, some (save_events events2), UIMsg.success "イベントを追加しました！")
  else
    (events, none, UIMsg.warning "イベントタイトルは必須です。")

/-- The delete button handler mutation (app.py lines 169-179):
`del events[ym][date][i]` with dict subscripts raising KeyError and the
list deletion raising IndexError, then pruning of the date key when its
list became empty and of the year-month key when its dict became
empty. An error aborts the script run before any save. -/
def deleteEvent (events : Document) (date : String) (i : Int) : Except PyError Document :=
  let ym := yearMonth date
  match pyGetItem events ym with
  | Except.error e => Except.error e
  | Except.ok mm =>
    match pyGetItem mm date with
    | Except.error e => Except.error e
    | Except.ok lst =>
      match pyDelIdx lst i with
      | Except.error e => Except.error e
      | Except.ok lst2 =>
        let mm2 := dictSet mm date lst2
        let mm3 := if lst2.isEmpty then dictDel mm2 date else mm2
        Except.ok (if mm3.isEmpty then dictDel events ym else dictSet events ym mm3)

/-- The delete button handler including its save and success message
(app.py lines 169-183). -/
def deleteEventHandler (events : Document) (date : String) (i : Int) :
    Except PyError (Document × StoredFile × UIMsg) :=
  match deleteEvent events date i with
  | Except.error e => Except.error e
  | Except.ok events2 =>
    Except.ok (events2, save_events events2, UIMsg.success "イベントを削除しました。")

/-- Whether an Except produced a value; false means the handler raised
before reaching its save. -/
def exceptIsOk {ε α : Type} : Except ε α → Bool
  | Except.ok _ => true
  | Except.error _ => false

/-- Well-formedness of the reachable documents: dict keys are unique at
both nesting levels (always true of Python dicts). -/
abbrev DocWF (d : Document) : Prop :=
  (d.map Prod.fst).Nodup ∧ ∀ p ∈ d, (p.2.map Prod.fst).Nodup

/-- The pruning invariant of the spec: every year-month entry holds a
non-empty month dict and every date entry holds a non-empty event
list. -/
abbrev NoEmptyContainers (d : Document) : Prop :=
  ∀ p ∈ d, p.2 ≠ [] ∧ ∀ q ∈ p.2, q.2 ≠ []

/-- The combined document invariant preserved by the handlers. -/
abbrev DocInv (d : Document) : Prop :=
  DocWF d ∧ NoEmptyContainers d

/-- Local pruning after a delete at a date: in the resulting document
the touched date key, when still present, holds a non-empty list, and
the touched year-month key, when still present, holds a non-empty
dict. -/
def prunedAtB (events : Document) (date : String) : Bool :=
  match dictGet events (yearMonth date) with
  | none => true
  | some mm =>
    !mm.isEmpty &&
      (match dictGet mm date with
       | none => true
       | some l => !l.isEmpty)

/-- One user mutation: an add with its form inputs and clock reading,
or a delete at a list position. A delete that raises leaves the
document of the next script run unchanged (the file was not
rewritten). -/
inductive Op where
  | add (date title desc now : String)
  | del (date : String) (i : Int)

/-- Apply one operation through the handlers. -/
def applyOp (events : Document) : Op → Document
  | Op.add date title desc now => (addEventHandler events date title desc now).1
  | Op.del date i =>
    match deleteEvent events date i with
    | Except.ok events2 => events2
    | Except.error _ => events

/-- Apply a sequence of operations. -/
def applyOps (events : Document) (ops : List Op) : Document :=
  List.foldl applyOp events ops

/-- The month-navigation cursor kept in st.session_state. -/
structure NavState where
  year : Int
  month : Int
deriving DecidableEq

/-- The prev_month button handler (app.py lines 58-63): decrement the
month and wrap below 1 to December of the previous year. -/
def prevMonth (s : NavState) : NavState :=
  let m := s.month - 1
  if m < 1 then { year := s.year - 1, month := 12 } else { year := s.year, month := m }

/-- The next_month button handler (app.py lines 69-74): increment the
month and wrap above 12 to January of the next year. -/
def nextMonth (s : NavState) : NavState :=
  let m := s.month + 1
  if m > 12 then { year := s.year + 1, month := 1 } else { year := s.year, month := m }

/-- A month-navigation click. -/
inductive NavOp where
  | prev
  | next

/-- Apply one navigation click. -/
def applyNavOp (s : NavState) : NavOp → NavState
  | NavOp.prev => prevMonth s
  | NavOp.next => nextMonth s

/-- Apply a sequence of navigation clicks. -/
def applyNavOps (s : NavState) (ops : List NavOp) : NavState :=
  List.foldl applyNavOp s ops

/-- An example document with one event, used as concrete input by the
witness and counterexample theorems. -/
def exDocA : Document :=
  [("2024-03", [("2024-03-15", [⟨"Meeting", "Standup", "2024-03-15T09:00:00"⟩])])]

section DictLemmas

variable {β : Type}

theorem dictGet_set_self (d : List (String × β)) (k : String) (v : β) :
    dictGet (dictSet d k v) k = some v := by
  induction d with
  | nil => simp [dictGet, dictSet]
  | cons p rest ih =>
    by_cases h : p.1 = k <;> simp [dictGet, dictSet, h, ih]

theorem dictGet_set_ne (d : List (String × β)) (k k2 : String) (v : β) (h : k2 ≠ k) :
    dictGet (dictSet d k v) k2 = dictGet d k2 := by
  induction d with
  | nil => simp [dictGet, dictSet, Ne.symm h]
  | cons p rest ih =>
    by_cases hp : p.1 = k
    · simp [dictGet, dictSet, hp, Ne.symm h]
    · simp [dictGet, dictSet, hp, ih]

theorem dictGet_del_ne (d : List (String × β)) (k k2 : String) (h : k2 ≠ k) :
    dictGet (dictDel d k) k2 = dictGet d k2 := by
  induction d with
  | nil => simp [dictDel]
  | cons p rest ih =>
    by_cases hp : p.1 = k
    · simp [dictDel, dictGet, hp, Ne.symm h]
    · simp [dictDel, dictGet, hp, ih]

theorem dictGet_eq_none_of_not_mem (d : List (String × β)) (k : String)
    (h : k ∉ d.map Prod.fst) : dictGet d k = none := by
  induction d with
  | nil => simp [dictGet]
  | cons p rest ih =>
    simp only [List.map_cons, List.mem_cons] at h
    push_neg at h
    simp [dictGet, Ne.symm h.1, ih h.2]

theorem dictGet_del_self (d : List (String × β)) (k : String)
    (h : (d.map Prod.fst).Nodup) : dictGet (dictDel d k) k = none := by
  induction d with
  | nil => simp [dictDel, dictGet]
  | cons p rest ih =>
    simp only [List.map_cons, List.nodup_cons] at h
    by_cases hp : p.1 = k
    · subst hp
      simpa [dictDel] using dictGet_eq_none_of_not_mem rest p.1 h.1
    · simp [dictDel, dictGet, hp, ih h.2]

theorem dictGet_mem (d : List (String × β)) (k : String) (v : β)
    (h : dictGet d k = some v) : (k, v) ∈ d := by
  induction d with
  | nil => simp [dictGet] at h
  | cons p rest ih =>
    simp only [dictGet] at h
    split at h
    · next heq =>
      injection h with h2
      subst heq
      subst h2
      simp
    · exact List.mem_cons_of_mem p (ih h)

theorem mem_dictSet (d : List (String × β)) (k : String) (v : β) (p : String × β)
    (h : p ∈ dictSet d k v) : p ∈ d ∨ p = (k, v) := by
  induction d with
  | nil =>
    right
    simpa [dictSet] using h
  | cons q rest ih =>
    simp only [dictSet] at h
    split at h
    · rcases List.mem_cons.mp h with h2 | h2
      · right; exact h2
      · left; exact List.mem_cons_of_mem q h2
    · rcases List.mem_cons.mp h with h2 | h2
      · left
        rw [h2]
        exact List.mem_cons_self q rest
      · rcases ih h2 with h3 | h3
        · left; exact List.mem_cons_of_mem q h3
        · right; exact h3

end DictLemmas

section DictLemmas2

variable {β : Type}

theorem dictDel_sublist (d : List (String × β)) (k : String) :
    List.Sublist (dictDel d k) d := by
  induction d with
  | nil => simp [dictDel]
  | cons p rest ih =>
    simp only [dictDel]
    split
    · exact List.sublist_cons_of_sublist p (List.Sublist.refl rest)
    · exact List.Sublist.cons₂ p ih

theorem dictDel_dictSet (d : List (String × β)) (k : String) (v : β) :
    dictDel (dictSet d k v) k = dictDel d k := by
  induction d with
  | nil => simp [dictSet, dictDel]
  | cons p rest ih =>
    by_cases hp : p.1 = k
    · simp [dictSet, dictDel, hp]
    · simp [dictSet, dictDel, hp, ih]

theorem dictSet_dictSet (d : List (String × β)) (k : String) (v w : β) :
    dictSet (dictSet d k v) k w = dictSet d k w := by
  induction d with
  | nil => simp [dictSet]
  | cons p rest ih =>
    by_cases hp : p.1 = k
    · simp [dictSet, hp]
    · simp [dictSet, hp, ih]

theorem dictSet_ne_nil (d : List (String × β)) (k : String) (v : β) :
    dictSet d k v ≠ [] := by
  cases d with
  | nil => simp [dictSet]
  | cons p rest =>
    simp only [dictSet]
    split <;> simp

theorem mem_keys_dictSet (d : List (String × β)) (k a : String) (v : β)
    (h : a ∈ (dictSet d k v).map Prod.fst) : a ∈ d.map Prod.fst ∨ a = k := by
  rcases List.mem_map.mp h with ⟨p, hp, hpa⟩
  rcases mem_dictSet d k v p hp with h2 | h2
  · left; exact hpa ▸ List.mem_map_of_mem Prod.fst h2
  · right
    rw [h2] at hpa
    exact hpa.symm

theorem nodup_keys_dictSet (d : List (String × β)) (k : String) (v : β)
    (h : (d.map Prod.fst).Nodup) : ((dictSet d k v).map Prod.fst).Nodup := by
  induction d with
  | nil => simp [dictSet]
  | cons p rest ih =>
    simp only [List.map_cons, List.nodup_cons] at h
    by_cases hp : p.1 = k
    · subst hp
      simpa [dictSet, List.nodup_cons] using h
    · simp only [dictSet, hp, if_false, List.map_cons, List.nodup_cons]
      refine ⟨fun hmem => ?_, ih h.2⟩
      rcases mem_keys_dictSet rest k p.1 v hmem with h2 | h2
      · exact h.1 h2
      · exact hp h2

end DictLemmas2

theorem addEvent_eq (events : Document) (date title desc now : String) :
    addEvent events date title desc now =
      dictSet events (yearMonth date)
        (dictSet ((dictGet events (yearMonth date)).getD []) date
          (((dictGet ((dictGet events (yearMonth date)).getD []) date).getD []) ++
            [⟨title, desc, now⟩])) := by
  unfold addEvent
  cases h1 : dictGet events (yearMonth date) with
  | none =>
    simp [h1, dictGet_set_self, dictGet, dictSet, dictSet_dictSet]
  | some mm =>
    cases h2 : dictGet mm date with
    | none =>
      simp [h1, h2, dictGet_set_self, dictSet_dictSet]
    | some l =>
      simp [h1, h2]

theorem listEvents_eq (events : Document) (date : String) :
    listEvents events date =
      (dictGet ((dictGet events (yearMonth date)).getD []) date).getD [] := by
  unfold listEvents
  cases h1 : dictGet events (yearMonth date) with
  | none => simp [dictGet]
  | some mm =>
    simp only [Option.getD_some]
    cases h2 : dictGet mm date <;> simp

theorem decodeRecord_encodeRecord (r : EventRecord) :
    decodeRecord (encodeRecord r) = some r := rfl

theorem optMapAll_decodeRecord (l : List EventRecord) :
    optMapAll decodeRecord (l.map encodeRecord) = some l := by
  induction l with
  | nil => rfl
  | cons r rest ih => simp [optMapAll, decodeRecord_encodeRecord, ih]

theorem decodeMonthMap_encodeMonthMap (mm : MonthMap) :
    decodeMonthMap (encodeMonthMap mm) = some mm := by
  induction mm with
  | nil => rfl
  | cons p rest ih =>
    simp only [encodeMonthMap, decodeMonthMap, List.map_cons] at ih ⊢
    have hhead : decodeDayList (Json.arr (p.2.map encodeRecord)) = some p.2 := by
      simp [decodeDayList, optMapAll_decodeRecord]
    simp [optMapAll, hhead, ih]

theorem decodeDoc_encodeDoc (d : Document) : decodeDoc (encodeDoc d) = some d := by
  induction d with
  | nil => rfl
  | cons p rest ih =>
    simp only [encodeDoc, decodeDoc, List.map_cons] at ih ⊢
    simp [optMapAll, decodeMonthMap_encodeMonthMap, ih]

theorem nav_month_step (s : NavState) (op : NavOp) (h1 : 1 ≤ s.month) (h2 : s.month ≤ 12) :
    1 ≤ (applyNavOp s op).month ∧ (applyNavOp s op).month ≤ 12 := by
  cases op with
  | prev =>
    simp only [applyNavOp, prevMonth]
    split <;> (dsimp only; omega)
  | next =>
    simp only [applyNavOp, nextMonth]
    split <;> (dsimp only; omega)

/-- Claim C2: saving a document and loading it back yields the identical
document. The loaded JSON value is exactly the saved one and decodes to
the original document; all strings, non-ASCII text included, are carried
verbatim through the encoding (save_events passes ensure_ascii as False,
so the text layer writes code points unescaped). -/
theorem save_load_round_trip (d : Document) :
    load_events (save_events d) = (save_events d, encodeDoc d, []) ∧
    decodeDoc (encodeDoc d) = some d :=
  ⟨rfl, decodeDoc_encodeDoc d⟩

/-- Claim C5: adding an event with an empty title is rejected with the
warning message, the document is unchanged, and nothing is written to
storage. -/
theorem empty_title_add_rejected (events : Document) (date desc now : String) :
    addEventHandler events date "" desc now =
      (events, none, UIMsg.warning "イベントタイトルは必須です。") := by
  simp [addEventHandler]

/-- Claim C6: loading a file with malformed content returns the empty
document together with the recoverable st.error message, leaves the file
itself untouched, and does not crash (load_events is total); only a
later save_events replaces the content. -/
theorem corrupt_file_load_recovers (s : String) :
    load_events (StoredFile.corrupt s) =
      (StoredFile.corrupt s, Json.obj [],
        [UIMsg.error "イベントファイルが破損しています。空のデータで開始します。"]) ∧
    decodeDoc (Json.obj []) = some [] ∧
    (∀ d : Document, save_events d = StoredFile.json (encodeDoc d)) :=
  ⟨rfl, rfl, fun _ => rfl⟩

/-- Claim C8: loading when no storage file exists yields the empty
document with no message of any kind, and the file state is unchanged. -/
theorem missing_file_load_empty :
    load_events StoredFile.missing = (StoredFile.missing, Json.obj [], []) ∧
    decodeDoc (Json.obj []) = some [] :=
  ⟨rfl, rfl⟩

/-- Claim C7: prevMonth from month 1 wraps to December of the previous
year, nextMonth from month 12 wraps to January of the next year, and
away from the boundaries the month moves by one with the year fixed. -/
theorem month_nav_boundaries (y m : Int) :
    prevMonth ⟨y, 1⟩ = ⟨y - 1, 12⟩ ∧
    nextMonth ⟨y, 12⟩ = ⟨y + 1, 1⟩ ∧
    (2 ≤ m → m ≤ 12 → prevMonth ⟨y, m⟩ = ⟨y, m - 1⟩) ∧
    (1 ≤ m → m ≤ 11 → nextMonth ⟨y, m⟩ = ⟨y, m + 1⟩) := by
  refine ⟨?_, ?_, ?_, ?_⟩
  · simp [prevMonth]
  · simp [nextMonth]
  · intro h1 h2
    simp only [prevMonth]
    rw [if_neg (by omega)]
  · intro h1 h2
    simp only [nextMonth]
    rw [if_neg (by omega)]

/-- Witness for claim C7 away from the boundary, at year 2024 and
month 5. -/
theorem month_nav_boundaries_witness :
    prevMonth ⟨2024, 5⟩ = ⟨2024, 4⟩ ∧ nextMonth ⟨2024, 5⟩ = ⟨2024, 6⟩ :=
  ⟨(month_nav_boundaries 2024 5).2.2.1 (by decide) (by decide),
   (month_nav_boundaries 2024 5).2.2.2 (by decide) (by decide)⟩

/-- Claim C9: from any cursor whose month is in 1..12, any sequence of
prev and next clicks keeps the month in 1..12. -/
theorem month_invariant_preserved (s : NavState) (ops : List NavOp)
    (h1 : 1 ≤ s.month) (h2 : s.month ≤ 12) :
    1 ≤ (applyNavOps s ops).month ∧ (applyNavOps s ops).month ≤ 12 := by
  induction ops generalizing s with
  | nil => exact ⟨h1, h2⟩
  | cons op rest ih =>
    have hstep := nav_month_step s op h1 h2
    exact ih (applyNavOp s op) hstep.1 hstep.2

/-- Witness for claim C9 at a concrete cursor and click sequence that
crosses a year boundary twice. -/
theorem month_invariant_preserved_witness :
    1 ≤ (applyNavOps ⟨2024, 1⟩ [NavOp.prev, NavOp.prev, NavOp.next]).month ∧
    (applyNavOps ⟨2024, 1⟩ [NavOp.prev, NavOp.prev, NavOp.next]).month ≤ 12 :=
  month_invariant_preserved ⟨2024, 1⟩ [NavOp.prev, NavOp.prev, NavOp.next]
    (by decide) (by decide)

/-- Claim C1: with a non-empty title, the add handler followed by
listing the same date yields the old list with exactly one new record
appended at the end, whose title and description are the inputs and
whose timestamp is the clock reading of the call, hence within any
bounds enclosing it. -/
theorem addEvent_listEvents_appends (events : Document) (date title desc now t1 t2 : String)
    (htitle : title ≠ "") (hlo : t1 ≤ now) (hhi : now ≤ t2) :
    ∃ r : EventRecord,
      listEvents (addEventHandler events date title desc now).1 date =
        listEvents events date ++ [r] ∧
      r.title = title ∧ r.description = desc ∧ t1 ≤ r.timestamp ∧ r.timestamp ≤ t2 := by
  refine ⟨⟨title, desc, now⟩, ?_, rfl, rfl, hlo, hhi⟩
  simp only [addEventHandler, if_pos htitle]
  rw [listEvents_eq, listEvents_eq, addEvent_eq]
  rw [dictGet_set_self]
  simp only [Option.getD_some]
  rw [dictGet_set_self]
  simp

/-- Witness for claim C1: adding to the empty document at a concrete
date with the bounds collapsed onto the clock reading. -/
theorem addEvent_listEvents_appends_witness :
    ∃ r : EventRecord,
      listEvents
          (addEventHandler [] "2024-03-15" "Meeting" "Standup" "2024-03-15T09:00:00").1
          "2024-03-15" =
        listEvents [] "2024-03-15" ++ [r] ∧
      r.title = "Meeting" ∧ r.description = "Standup" ∧
      "2024-03-15T09:00:00" ≤ r.timestamp ∧ r.timestamp ≤ "2024-03-15T09:00:00" :=
  addEvent_listEvents_appends [] "2024-03-15" "Meeting" "Standup" "2024-03-15T09:00:00"
    "2024-03-15T09:00:00" "2024-03-15T09:00:00" (by decide) (le_refl _) (le_refl _)

/-- Claim C10: with a non-empty title, the add handler changes nothing
else: every other year-month key keeps its value, every other date key
inside the target year-month keeps its list, and every pre-existing
event of the target date keeps its position and contents. -/
theorem addEvent_frame (events : Document) (date title desc now : String)
    (htitle : title ≠ "") :
    (∀ ym, ym ≠ yearMonth date →
       dictGet (addEventHandler events date title desc now).1 ym = dictGet events ym) ∧
    (∀ mm2, dictGet (addEventHandler events date title desc now).1 (yearMonth date) = some mm2 →
       ∀ d2, d2 ≠ date →
         dictGet mm2 d2 = dictGet ((dictGet events (yearMonth date)).getD []) d2) ∧
    (∀ k : Nat, k < (listEvents events date).length →
       (listEvents (addEventHandler events date title desc now).1 date).get? k =
         (listEvents events date).get? k) := by
  have happ :
      listEvents (addEventHandler events date title desc now).1 date =
        listEvents events date ++ [⟨title, desc, now⟩] := by
    simp only [addEventHandler, if_pos htitle]
    rw [listEvents_eq, listEvents_eq, addEvent_eq]
    rw [dictGet_set_self]
    simp only [Option.getD_some]
    rw [dictGet_set_self]
    simp
  refine ⟨?_, ?_, ?_⟩
  · intro ym hym
    simp only [addEventHandler, if_pos htitle]
    rw [addEvent_eq, dictGet_set_ne _ _ _ _ hym]
  · intro mm2 hmm2 d2 hd2
    simp only [addEventHandler, if_pos htitle] at hmm2
    rw [addEvent_eq, dictGet_set_self] at hmm2
    injection hmm2 with hmm2
    rw [← hmm2, dictGet_set_ne _ _ _ _ hd2]
  · intro k hk
    rw [happ]
    rw [List.get?_eq_getElem?, List.get?_eq_getElem?]
    exact List.getElem?_append_left hk

/-- Witness for claim C10: in a one-event document, adding at the same
date leaves a different year-month key and the position-0 event
unchanged. -/
theorem addEvent_frame_witness :
    dictGet (addEventHandler exDocA "2024-03-15" "X" "Y" "t9").1 "2023-01" =
      dictGet exDocA "2023-01" ∧
    (listEvents (addEventHandler exDocA "2024-03-15" "X" "Y" "t9").1 "2024-03-15").get? 0 =
      (listEvents exDocA "2024-03-15").get? 0 :=
  ⟨(addEvent_frame exDocA "2024-03-15" "X" "Y" "t9" (by decide)).1 "2023-01" (by decide),
   (addEvent_frame exDocA "2024-03-15" "X" "Y" "t9" (by decide)).2.2 0 (by decide)⟩

theorem docInv_dictSet (events : Document) (ym : String) (mm3 : MonthMap)
    (h : DocInv events) (hkeys : (mm3.map Prod.fst).Nodup) (hne : mm3 ≠ [])
    (hvals : ∀ q ∈ mm3, q.2 ≠ []) : DocInv (dictSet events ym mm3) := by
  rcases h with ⟨⟨hk, hin⟩, hnemp⟩
  refine ⟨⟨nodup_keys_dictSet _ _ _ hk, ?_⟩, ?_⟩
  · intro p hp
    rcases mem_dictSet _ _ _ _ hp with h2 | h2
    · exact hin p h2
    · rw [h2]
      exact hkeys
  · intro p hp
    rcases mem_dictSet _ _ _ _ hp with h2 | h2
    · exact hnemp p h2
    · rw [h2]
      exact ⟨hne, hvals⟩

theorem docInv_dictDel (events : Document) (ym : String) (h : DocInv events) :
    DocInv (dictDel events ym) := by
  rcases h with ⟨⟨hk, hin⟩, hnemp⟩
  have hsub := dictDel_sublist events ym
  refine ⟨⟨(hsub.map Prod.fst).nodup hk, ?_⟩, ?_⟩
  · intro p hp
    exact hin p (hsub.subset hp)
  · intro p hp
    exact hnemp p (hsub.subset hp)

theorem monthMap_nodup_of_get (events : Document) (ym : String) (mm : MonthMap)
    (h : DocWF events) (hget : dictGet events ym = some mm) :
    (mm.map Prod.fst).Nodup :=
  h.2 (ym, mm) (dictGet_mem _ _ _ hget)

theorem monthMap_vals_of_get (events : Document) (ym : String) (mm : MonthMap)
    (h : NoEmptyContainers events) (hget : dictGet events ym = some mm) :
    ∀ q ∈ mm, q.2 ≠ [] :=
  (h (ym, mm) (dictGet_mem _ _ _ hget)).2

theorem docInv_addEvent (events : Document) (date title desc now : String)
    (h : DocInv events) : DocInv (addEvent events date title desc now) := by
  rw [addEvent_eq]
  have hmm0keys : (((dictGet events (yearMonth date)).getD []).map Prod.fst).Nodup := by
    cases hg : dictGet events (yearMonth date) with
    | none => simp
    | some mm => simpa using monthMap_nodup_of_get events (yearMonth date) mm h.1 hg
  have hmm0vals : ∀ q ∈ (dictGet events (yearMonth date)).getD [], q.2 ≠ [] := by
    cases hg : dictGet events (yearMonth date) with
    | none => simp
    | some mm => simpa using monthMap_vals_of_get events (yearMonth date) mm h.2 hg
  refine docInv_dictSet events (yearMonth date) _ h (nodup_keys_dictSet _ _ _ hmm0keys)
    (dictSet_ne_nil _ _ _) ?_
  intro q hq
  rcases mem_dictSet _ _ _ _ hq with h2 | h2
  · exact hmm0vals q h2
  · rw [h2]
    simp

theorem docInv_deleteEvent (events events2 : Document) (date : String) (i : Int)
    (h : DocInv events) (hd : deleteEvent events date i = Except.ok events2) :
    DocInv events2 := by
  unfold deleteEvent at hd
  cases h1 : dictGet events (yearMonth date) with
  | none => simp [pyGetItem, h1] at hd
  | some mm =>
    cases h2 : dictGet mm date with
    | none => simp [pyGetItem, h1, h2] at hd
    | some lst =>
      simp only [pyGetItem, h1, h2] at hd
      cases h3 : pyDelIdx lst i with
      | error e => simp [h3] at hd
      | ok lst2 =>
        simp only [h3, Except.ok.injEq] at hd
        rw [← hd]
        have hmmkeys := monthMap_nodup_of_get events (yearMonth date) mm h.1 h1
        have hmmvals := monthMap_vals_of_get events (yearMonth date) mm h.2 h1
        by_cases hemp : lst2.isEmpty
        · rw [if_pos hemp, dictDel_dictSet]
          by_cases hemp2 : (dictDel mm date).isEmpty
          · rw [if_pos hemp2]
            exact docInv_dictDel events (yearMonth date) h
          · rw [if_neg hemp2]
            have hsub := dictDel_sublist mm date
            refine docInv_dictSet events (yearMonth date) _ h
              ((hsub.map Prod.fst).nodup hmmkeys) ?_ ?_
            · intro hnil
              rw [hnil] at hemp2
              simp at hemp2
            · intro q hq
              exact hmmvals q (hsub.subset hq)
        · rw [if_neg hemp]
          have hne3 : dictSet mm date lst2 ≠ [] := dictSet_ne_nil _ _ _
          rw [if_neg (by simpa using hne3)]
          refine docInv_dictSet events (yearMonth date) _ h
            (nodup_keys_dictSet _ _ _ hmmkeys) hne3 ?_
          intro q hq
          rcases mem_dictSet _ _ _ _ hq with h4 | h4
          · exact hmmvals q h4
          · rw [h4]
            simpa using hemp

theorem docInv_applyOp (events : Document) (op : Op) (h : DocInv events) :
    DocInv (applyOp events op) := by
  cases op with
  | add date title desc now =>
    simp only [applyOp, addEventHandler]
    split
    · exact docInv_addEvent events date title desc now h
    · exact h
  | del date i =>
    simp only [applyOp]
    cases hd : deleteEvent events date i with
    | ok events2 => exact docInv_deleteEvent events events2 date i h hd
    | error e => exact h

theorem docInv_applyOps (events : Document) (ops : List Op) (h : DocInv events) :
    DocInv (applyOps events ops) := by
  induction ops generalizing events with
  | nil => exact h
  | cons op rest ih =>
    exact ih (applyOp events op) (docInv_applyOp events op h)

theorem deleteEvent_prunedAt (events events2 : Document) (date : String) (i : Int)
    (hwf : DocWF events) (hd : deleteEvent events date i = Except.ok events2) :
    prunedAtB events2 date = true := by
  unfold deleteEvent at hd
  cases h1 : dictGet events (yearMonth date) with
  | none => simp [pyGetItem, h1] at hd
  | some mm =>
    cases h2 : dictGet mm date with
    | none => simp [pyGetItem, h1, h2] at hd
    | some lst =>
      simp only [pyGetItem, h1, h2] at hd
      cases h3 : pyDelIdx lst i with
      | error e => simp [h3] at hd
      | ok lst2 =>
        simp only [h3, Except.ok.injEq] at hd
        rw [← hd]
        have hmmkeys := monthMap_nodup_of_get events (yearMonth date) mm hwf h1
        by_cases hemp : lst2.isEmpty
        · rw [if_pos hemp, dictDel_dictSet]
          by_cases hemp2 : (dictDel mm date).isEmpty
          · rw [if_pos hemp2]
            unfold prunedAtB
            rw [dictGet_del_self events (yearMonth date) hwf.1]
          · rw [if_neg hemp2]
            unfold prunedAtB
            rw [dictGet_set_self]
            dsimp only
            rw [dictGet_del_self mm date hmmkeys]
            simp [hemp2]
        · rw [if_neg hemp]
          have hne3 : dictSet mm date lst2 ≠ [] := dictSet_ne_nil _ _ _
          rw [if_neg (by simpa using hne3)]
          unfold prunedAtB
          rw [dictGet_set_self]
          dsimp only
          rw [dictGet_set_self]
          dsimp only
          simp only [Bool.and_eq_true, Bool.not_eq_eq_eq_not, Bool.not_true]
          constructor
          · simpa using hne3
          · simpa using hemp

/-- Claim C3: on well-formed documents a successful delete leaves no
empty container at the touched date (the date key is pruned when its
list empties and the year-month key is pruned when its dict empties),
and the no-empty-containers invariant together with key uniqueness is
preserved by every sequence of add and delete operations. -/
theorem delete_pruning_invariant (events : Document) (h : DocInv events) :
    (∀ date i events2, deleteEvent events date i = Except.ok events2 →
       prunedAtB events2 date = true) ∧
    (∀ ops : List Op, DocInv (applyOps events ops)) :=
  ⟨fun date i events2 hd => deleteEvent_prunedAt events events2 date i h.1 hd,
   fun ops => docInv_applyOps events ops h⟩

/-- Witness for claim C3: deleting the only event of the only date
empties the document, and a delete followed by an add keeps the
invariant. -/
theorem delete_pruning_invariant_witness :
    prunedAtB [] "2024-03-15" = true ∧
    DocInv (applyOps exDocA [Op.del "2024-03-15" 0, Op.add "2024-03-16" "A" "B" "t0"]) :=
  ⟨(delete_pruning_invariant exDocA (by decide)).1 "2024-03-15" 0 [] rfl,
   (delete_pruning_invariant exDocA (by decide)).2
     [Op.del "2024-03-15" 0, Op.add "2024-03-16" "A" "B" "t0"]⟩

/-- Counterexample to claim C4: the index -1 is out of range for the
one-element list at the date (its valid positions are only 0), yet the
delete handler, through the negative-index semantics of Python del,
removes the last element and mutates the document down to empty, which
is then saved. -/
theorem delete_out_of_range_counterexample :
    deleteEvent exDocA "2024-03-15" (-1) = Except.ok [] ∧
    ¬ (0 ≤ (-1 : Int) ∧
        (-1 : Int) < ((listEvents exDocA "2024-03-15").length : Int)) ∧
    ([] : Document) ≠ exDocA := by
  refine ⟨rfl, by decide, by decide⟩

/-- Claim C4 as amended: deleting at an index at or beyond the length
of the list of the date, or below the negative of that length, raises
an error (KeyError or IndexError) before any mutation, so no document
is produced and nothing is saved; indices between -length and -1 are
Python negative indices and do delete. -/
theorem delete_out_of_range_amended (events : Document) (date : String) (i : Int)
    (h : ((listEvents events date).length : Int) ≤ i ∨
         i + ((listEvents events date).length : Int) < 0) :
    exceptIsOk (deleteEvent events date i) = false := by
  unfold deleteEvent
  cases h1 : dictGet events (yearMonth date) with
  | none => simp [pyGetItem, h1, exceptIsOk]
  | some mm =>
    cases h2 : dictGet mm date with
    | none => simp [pyGetItem, h1, h2, exceptIsOk]
    | some lst =>
      have hlst : listEvents events date = lst := by
        simp [listEvents, h1, h2]
      rw [hlst] at h
      have hc : ¬ ((0 : Int) ≤ (if i < 0 then i + (lst.length : Int) else i) ∧
          (if i < 0 then i + (lst.length : Int) else i) < (lst.length : Int)) := by
        split <;> omega
      simp [pyGetItem, h1, h2, pyDelIdx, hc, exceptIsOk]

/-- Witness for the amended claim C4: index 5 in the one-event document
raises without producing a document. -/
theorem delete_out_of_range_amended_witness :
    (((listEvents exDocA "2024-03-15").length : Int) ≤ 5 ∨
      (5 : Int) + ((listEvents exDocA "2024-03-15").length : Int) < 0) ∧
    exceptIsOk (deleteEvent exDocA "2024-03-15" 5) = false :=
  ⟨by decide, delete_out_of_range_amended exDocA "2024-03-15" 5 (by decide)⟩
